import Mathlib

/-!
# Verification of `incline/trend.py`

A shallow embedding of the `incline` repository (a single module,
`incline/trend.py`) and proofs about it.

The module operates on pandas DataFrames.  We model a time-series /
trend DataFrame as a list of rows.  Each row carries the index label
(`idx`, pandas keeps the input index through `df.copy()` and column
assignment), the `id` column, the `value` column and the columns the
trend functions write.  Missing entries (pandas `NaN` / `None`) are
modelled with `Option`.  Numeric cells are modelled with `ℚ`.

The external numeric routines (`scipy.interpolate.UnivariateSpline`,
`scipy.signal.savgol_filter`) are opaque collaborators: the embedding
takes their numeric cores as function parameters and models only their
documented argument validation (which inputs raise) and the shape of
their output (one output cell per input cell, an assumption stated as a
hypothesis where needed).  Raising a Python exception is modelled by
returning `none`.
-/

/-- A row of a (time-series or trend) DataFrame.  `idx` is the pandas
index label; every other field models a column, `none` standing for
`NaN`/`None` or for an absent column. -/
structure Row where
  idx : Nat
  id : Option String := none
  value : Option ℚ := none
  smoothed_value : Option ℚ := none
  derivative_value : Option ℚ := none
  derivative_method : Option String := none
  function_order : Option ℚ := none
  derivative_order : Option ℚ := none
  deriving Repr, DecidableEq

/-- `Series.shift(1)`: move every entry one position later; the first
entry becomes `NaN`.  The length is unchanged. -/
def shiftPos1 (y : List (Option ℚ)) : List (Option ℚ) :=
  (none :: y).take y.length

/-- `Series.shift(-1)`: move every entry one position earlier; the last
entry becomes `NaN`.  The length is unchanged. -/
def shiftNeg1 (y : List (Option ℚ)) : List (Option ℚ) :=
  (y.drop 1 ++ [none]).take y.length

/-- Cell subtraction: pandas arithmetic propagates `NaN`. -/
def osub (a b : Option ℚ) : Option ℚ :=
  match a, b with
  | some x, some y => some (x - y)
  | _, _ => none

/-- Cell minus a scalar: `NaN` propagates. -/
def osubScalar (a : Option ℚ) (c : ℚ) : Option ℚ :=
  match a with
  | some x => some (x - c)
  | none => none

/-- `DataFrame.mean(axis=1)` over two columns: pandas skips `NaN`
cells, so a single available cell is returned as is, and two missing
cells give `NaN`. -/
def mean2 (a b : Option ℚ) : Option ℚ :=
  match a, b with
  | some x, some y => some ((x + y) / 2)
  | some x, none => some x
  | none, some y => some y
  | none, none => none

/-- Assign a computed column to a copy of the frame: pairs rows with
column cells positionally (all columns built by the module are aligned
with the frame's own index). -/
def setColumn (f : Row → Option ℚ → Row) (df : List Row)
    (col : List (Option ℚ)) : List Row :=
  List.zipWith f df col

/-- `naive_trend(df, column_value='value')` from `incline/trend.py`.

The source computes
  `y_1 = y.shift(1)`, `y_2 = y.shift(-1)`,
  `y1_diff = y_1 - y`, `yneg1_diff = y - y-2`
(the last expression is `(y - y) - 2`, the literal source text), takes
the row-wise mean of the two difference columns skipping `NaN`, copies
the input frame and writes the columns `derivative_value`,
`derivative_method='naive'`, `function_order=None`,
`derivative_order=1`. -/
def naive_trend (df : List Row) : List Row :=
  let y := df.map (·.value)
  let y_1 := shiftPos1 y
  let y1_diff := List.zipWith osub y_1 y
  let yneg1_diff := (List.zipWith osub y y).map (osubScalar · 2)
  let dv := List.zipWith mean2 y1_diff yneg1_diff
  let odf := df
  let odf := setColumn (fun r v => { r with derivative_value := v }) odf dv
  let odf := odf.map (fun r => { r with derivative_method := some "naive" })
  let odf := odf.map (fun r => { r with function_order := none })
  odf.map (fun r => { r with derivative_order := some 1 })

theorem shiftPos1_length (y : List (Option ℚ)) :
    (shiftPos1 y).length = y.length := by
  simp [shiftPos1]

theorem shiftNeg1_length (y : List (Option ℚ)) :
    (shiftNeg1 y).length = y.length := by
  cases y with
  | nil => rfl
  | cons a as => simp [shiftNeg1]

theorem naive_trend_length (df : List Row) :
    (naive_trend df).length = df.length := by
  simp [naive_trend, setColumn, shiftPos1_length, shiftNeg1_length]

/-- `spline_trend(df, column_value='value', function_order=3,
derivative_order=1, s=3)` from `incline/trend.py`.

`fit k s ys nu` stands for the opaque numeric core of
`scipy.interpolate.UnivariateSpline(x, y, k=k, s=s)` evaluated with
derivative order `nu` at the positions `x = 0, 1, ..., len-1` (the
source builds `x` from `df.reset_index().index`); `nu = 0` is the value
of the smoothing spline itself, as in `spl(x)`, and
`nu = derivative_order` is `spl(x, nu=derivative_order)`.  The argument
validation of the scipy routine is modelled here: it raises when the
data contain non-finite values, when the spline degree `k` is outside
`1..5`, and when the number of data points is not larger than `k`;
`none` models the raised exception, which `spline_trend` does not
catch.  On success the source copies the input frame and writes the
columns `smoothed_value`, `derivative_value`, `function_order`,
`derivative_method='spline'` and `derivative_order`. -/
def spline_trend (fit : Nat → ℚ → List ℚ → Nat → List ℚ) (df : List Row)
    (function_order : Nat := 3) (derivative_order : Nat := 1) (s : ℚ := 3) :
    Option (List Row) :=
  let y := df.map (·.value)
  if y.any (·.isNone) then none
  else
    let ys := y.filterMap id
    if function_order < 1 ∨ 5 < function_order then none
    else if ys.length ≤ function_order then none
    else
      let sm := fit function_order s ys 0
      let dv := fit function_order s ys derivative_order
      let odf := df
      let odf := setColumn (fun r v => { r with smoothed_value := v }) odf (sm.map some)
      let odf := setColumn (fun r v => { r with derivative_value := v }) odf (dv.map some)
      let odf := odf.map (fun r => { r with function_order := some (function_order : ℚ) })
      let odf := odf.map (fun r => { r with derivative_method := some "spline" })
      some (odf.map (fun r => { r with derivative_order := some (derivative_order : ℚ) }))

/-- `scipy.signal.savgol_filter(y, window_length, polyorder, deriv)`,
modelled as validation around an opaque numeric core.  The scipy
routine raises when `window_length` is even, when `polyorder` is not
smaller than `window_length`, and (in the default `mode='interp'`) when
`window_length` exceeds the number of data points; otherwise it returns
one output cell per input cell. -/
def savgolFilter (core : List (Option ℚ) → Nat → Nat → Nat → List (Option ℚ))
    (y : List (Option ℚ)) (window_length polyorder deriv : Nat) :
    Option (List (Option ℚ)) :=
  if window_length % 2 = 0 then none
  else if window_length ≤ polyorder then none
  else if y.length < window_length then none
  else some (core y window_length polyorder deriv)

/-- `sgolay_trend(df, column_value='value', function_order=3,
derivative_order=1, window_length=15)` from `incline/trend.py`.

The source copies the input frame, then assigns
`savgol_filter(y, window_length, polyorder=function_order)` to
`smoothed_value` and
`savgol_filter(y, window_length, polyorder=function_order,
deriv=derivative_order)` to `derivative_value`, then tags
`function_order`, `derivative_method='sgolay'` and `derivative_order`.
A raise inside either filter call propagates (`none`). -/
def sgolay_trend (core : List (Option ℚ) → Nat → Nat → Nat → List (Option ℚ))
    (df : List Row) (function_order : Nat := 3) (derivative_order : Nat := 1)
    (window_length : Nat := 15) : Option (List Row) :=
  let y := df.map (·.value)
  let odf := df
  (savgolFilter core y window_length function_order 0).bind fun sm =>
    let odf := setColumn (fun r v => { r with smoothed_value := v }) odf sm
    (savgolFilter core y window_length function_order derivative_order).bind fun dv =>
      let odf := setColumn (fun r v => { r with derivative_value := v }) odf dv
      let odf := odf.map (fun r => { r with function_order := some (function_order : ℚ) })
      let odf := odf.map (fun r => { r with derivative_method := some "sgolay" })
      some (odf.map (fun r => { r with derivative_order := some (derivative_order : ℚ) }))

theorem map_idx_of_map (g : Row → Row) (hg : ∀ r, (g r).idx = r.idx)
    (l : List Row) : (l.map g).map (·.idx) = l.map (·.idx) := by
  induction l with
  | nil => rfl
  | cons a as ih => simp [hg, ih]

theorem map_idx_of_zipWith (g : Row → Option ℚ → Row)
    (hg : ∀ r v, (g r v).idx = r.idx) (l : List Row)
    (c : List (Option ℚ)) (hc : l.length ≤ c.length) :
    (List.zipWith g l c).map (·.idx) = l.map (·.idx) := by
  induction l generalizing c with
  | nil => rfl
  | cons a as ih =>
    cases c with
    | nil => simp at hc
    | cons b bs =>
      simp only [List.zipWith_cons_cons, List.map_cons, hg]
      rw [ih bs (by simpa using hc)]

theorem map_length_of_map (g : Row → Row) (l : List Row) :
    (l.map g).length = l.length := by
  simp

theorem setColumn_length (f : Row → Option ℚ → Row) (df : List Row)
    (col : List (Option ℚ)) (h : df.length ≤ col.length) :
    (setColumn f df col).length = df.length := by
  simp [setColumn, List.length_zipWith]
  omega

theorem filterMap_id_length (y : List (Option ℚ))
    (h : y.any (·.isNone) = false) : (y.filterMap id).length = y.length := by
  induction y with
  | nil => rfl
  | cons a as ih =>
    simp only [List.any_cons, Bool.or_eq_false_iff] at h
    cases a with
    | none => simp at h
    | some x => simp [List.filterMap_cons, ih h.2]

theorem naive_trend_idx (df : List Row) :
    (naive_trend df).map (·.idx) = df.map (·.idx) := by
  have hlen : df.length ≤
      (List.zipWith mean2
        (List.zipWith osub (shiftPos1 (df.map (·.value))) (df.map (·.value)))
        ((List.zipWith osub (df.map (·.value)) (df.map (·.value))).map
          (osubScalar · 2))).length := by
    simp [shiftPos1_length]
  simp only [naive_trend]
  rw [map_idx_of_map (fun r => { r with derivative_order := some 1 }) (fun r => rfl),
    map_idx_of_map (fun r => { r with function_order := none }) (fun r => rfl),
    map_idx_of_map (fun r => { r with derivative_method := some "naive" }) (fun r => rfl),
    setColumn,
    map_idx_of_zipWith (fun r v => { r with derivative_value := v }) (fun r v => rfl) _ _ hlen]

theorem savgolFilter_length
    (core : List (Option ℚ) → Nat → Nat → Nat → List (Option ℚ))
    (hcore : ∀ y w p d, (core y w p d).length = y.length)
    (y : List (Option ℚ)) (w p d : Nat) (l : List (Option ℚ))
    (h : savgolFilter core y w p d = some l) : l.length = y.length := by
  simp only [savgolFilter] at h
  split_ifs at h
  rw [Option.some_inj] at h
  subst h
  exact hcore y w p d

theorem spline_trend_shape
    (fit : Nat → ℚ → List ℚ → Nat → List ℚ)
    (hfit : ∀ k s ys nu, (fit k s ys nu).length = ys.length)
    (df : List Row) (fo dord : Nat) (s : ℚ) (o : List Row)
    (h : spline_trend fit df fo dord s = some o) :
    o.map (·.idx) = df.map (·.idx) ∧ o.length = df.length := by
  simp only [spline_trend] at h
  split_ifs at h with h1 h2 h3
  rw [Option.some_inj] at h
  subst h
  have hy : (df.map (·.value)).any (·.isNone) = false := by
    simpa using h1
  have hys : ((df.map (·.value)).filterMap id).length = df.length := by
    rw [filterMap_id_length _ hy]
    simp
  have hsm : df.length ≤
      ((fit fo s ((df.map (·.value)).filterMap id) 0).map some).length := by
    rw [List.length_map, hfit, hys]
  have hlen1 : (setColumn (fun r v => { r with smoothed_value := v }) df
      ((fit fo s ((df.map (·.value)).filterMap id) 0).map some)).length
      = df.length := setColumn_length _ _ _ hsm
  have hdv : (setColumn (fun r v => { r with smoothed_value := v }) df
      ((fit fo s ((df.map (·.value)).filterMap id) 0).map some)).length ≤
      ((fit fo s ((df.map (·.value)).filterMap id) dord).map some).length := by
    rw [hlen1, List.length_map, hfit, hys]
  constructor
  · rw [map_idx_of_map (fun r => { r with derivative_order := some (dord : ℚ) }) (fun r => rfl),
      map_idx_of_map (fun r => { r with derivative_method := some "spline" }) (fun r => rfl),
      map_idx_of_map (fun r => { r with function_order := some (fo : ℚ) }) (fun r => rfl),
      setColumn, map_idx_of_zipWith (fun r v => { r with derivative_value := v }) (fun r v => rfl) _ _ hdv,
      setColumn, map_idx_of_zipWith (fun r v => { r with smoothed_value := v }) (fun r v => rfl) _ _ hsm]
  · rw [map_length_of_map, map_length_of_map, map_length_of_map,
      setColumn_length _ _ _ hdv, hlen1]

theorem sgolay_trend_shape
    (core : List (Option ℚ) → Nat → Nat → Nat → List (Option ℚ))
    (hcore : ∀ ys w p d, (core ys w p d).length = ys.length)
    (df : List Row) (fo dord wl : Nat) (o : List Row)
    (h : sgolay_trend core df fo dord wl = some o) :
    o.map (·.idx) = df.map (·.idx) ∧ o.length = df.length := by
  simp only [sgolay_trend, Option.bind_eq_some] at h
  obtain ⟨sm, hsm, dv, hdv, h⟩ := h
  rw [Option.some_inj] at h
  subst h
  have hsml : df.length ≤ sm.length := by
    rw [savgolFilter_length core hcore _ _ _ _ _ hsm]
    simp
  have hlen1 : (setColumn (fun r v => { r with smoothed_value := v }) df sm).length
      = df.length := setColumn_length _ _ _ hsml
  have hdvl : (setColumn (fun r v => { r with smoothed_value := v }) df sm).length
      ≤ dv.length := by
    rw [hlen1, savgolFilter_length core hcore _ _ _ _ _ hdv]
    simp
  constructor
  · rw [map_idx_of_map (fun r => { r with derivative_order := some (dord : ℚ) }) (fun r => rfl),
      map_idx_of_map (fun r => { r with derivative_method := some "sgolay" }) (fun r => rfl),
      map_idx_of_map (fun r => { r with function_order := some (fo : ℚ) }) (fun r => rfl),
      setColumn, map_idx_of_zipWith (fun r v => { r with derivative_value := v }) (fun r v => rfl) _ _ hdvl,
      setColumn, map_idx_of_zipWith (fun r v => { r with smoothed_value := v }) (fun r v => rfl) _ _ hsml]
  · rw [map_length_of_map, map_length_of_map, map_length_of_map,
      setColumn_length _ _ _ hdvl, hlen1]

/-- A row of the ranking table returned by `trending`: the `id` column
and the aggregated score column, which the source renames to
`max_or_avg` via `odf.columns = ['id', 'max_or_avg']`. -/
structure RankRow where
  id : String
  max_or_avg : Option ℚ
  deriving Repr, DecidableEq

/-- The boolean-mask row filter
`df[df.derivative_order == derivative_order]`: keeps, in order, the
rows whose `derivative_order` cell equals the requested value (a `NaN`
cell compares unequal). -/
def filterOrder (d : ℚ) (df : List Row) : List Row :=
  df.filter (fun r => r.derivative_order == some d)

/-- The Python slice `xs[-k:]`.  For `k ≥ 1` it keeps the last `k`
elements (all of them when fewer than `k` exist); for `k = 0` the slice
is `xs[0:]`, the whole sequence, because `-0 == 0` in Python. -/
def pySliceLast (k : Nat) (l : List α) : List α :=
  if k = 0 then l else l.drop (l.length - k)

/-- The last `k` elements of a list (the plain reading of the words
"takes the last k of those rows"). -/
def lastK (k : Nat) (l : List α) : List α :=
  l.drop (l.length - k)

/-- Pandas `'max'` aggregation over the non-`NaN` cells of a group
column; an empty group column gives `NaN`. -/
def listMax : List ℚ → Option ℚ
  | [] => none
  | x :: xs => some (xs.foldl max x)

/-- Pandas `'mean'` aggregation over the non-`NaN` cells of a group
column; an empty group column gives `NaN`. -/
def listMean (l : List ℚ) : Option ℚ :=
  if l.length = 0 then none else some (l.sum / l.length)

/-- `agg({'derivative_value': name})` for one group: pandas dispatches
on the aggregation name. -/
def aggBy (name : String) (qs : List ℚ) : Option ℚ :=
  if name = "max" then listMax qs
  else if name = "mean" then listMean qs
  else none

/-- Codepoint-lexicographic strict comparison on strings (the ordering
Python uses to compare `str` keys, hence the order pandas `groupby`
sorts group keys into). -/
def lexLtB : List Char → List Char → Bool
  | _, [] => false
  | [], _ :: _ => true
  | a :: as, b :: bs =>
    if a.toNat < b.toNat then true
    else if b.toNat < a.toNat then false
    else lexLtB as bs

def strLtB (a b : String) : Bool :=
  lexLtB a.data b.data

/-- Insert a key into a sorted key list (ascending). -/
def insertKey (a : String) : List String → List String
  | [] => [a]
  | b :: bs => if strLtB a b then a :: b :: bs else b :: insertKey a bs

/-- Sort group keys ascending, as pandas `groupby(sort=True)` (the
default) presents its groups. -/
def sortKeys : List String → List String
  | [] => []
  | a :: as => insertKey a (sortKeys as)

/-- The group keys of `tdf.groupby('id')`: the distinct non-`NaN`
values of the `id` column, in ascending key order. -/
def groupKeys (tdf : List Row) : List String :=
  sortKeys (tdf.filterMap (·.id)).dedup

/-- `tdf.groupby('id').agg({'derivative_value': name})`, followed by
`reset_index` and the column renaming: one output row per distinct
`id`, holding the aggregate of that group's non-`NaN`
`derivative_value` cells. -/
def groupAgg (name : String) (tdf : List Row) : List RankRow :=
  (groupKeys tdf).map fun i =>
    ⟨i, aggBy name ((tdf.filter (fun r => r.id == some i)).filterMap
      (·.derivative_value))⟩

/-- `trending(df_list, column_id='id', derivative_order=1,
max_or_avg='max', k=5)` from `incline/trend.py`.

For each frame the source appends
`df[df.derivative_order == derivative_order][-k:]` to `cdf`, then
concatenates (`pd.concat` raises on an empty list, hence `none` for an
empty `df_list`), replaces the aggregation name `'avg'` by `'mean'`,
and runs a grouped aggregation over the pooled rows (pandas raises on
an aggregation name it does not know, hence `none` then).  The
`column_id` parameter of the source is dead: the source groups by the
literal `'id'`. -/
def trending (df_list : List (List Row)) (derivative_order : ℚ := 1)
    (max_or_avg : String := "max") (k : Nat := 5) : Option (List RankRow) :=
  let cdf := df_list.map fun df => pySliceLast k (filterOrder derivative_order df)
  if df_list.isEmpty then none
  else
    let tdf := cdf.flatten
    let agg := if max_or_avg = "avg" then "mean" else max_or_avg
    if agg = "max" ∨ agg = "mean" then some (groupAgg agg tdf) else none

/-- The aggregation mode, `'max'` or `'avg'`. -/
inductive AggMode where
  | max
  | avg
  deriving Repr, DecidableEq

/-- The string the caller passes for a mode. -/
def AggMode.arg : AggMode → String
  | .max => "max"
  | .avg => "avg"

/-- The aggregation pandas runs for a mode per the spec: `'max'` for
`max`, `'mean'` for `avg`. -/
def AggMode.agg : AggMode → String
  | .max => "max"
  | .avg => "mean"

/-- Modelled from the spec (the reference point for the refinement
claim about `trending`): for each series keep the rows matching the
requested derivative order, take the last `k` of those by row order,
concatenate all per-series subsets, group the pooled table by `id` and
aggregate `derivative_value` with `'max'` or `'mean'` as the mode
says. -/
def trendingSpec (df_list : List (List Row)) (d : ℚ) (mode : AggMode)
    (k : Nat) : List RankRow :=
  groupAgg mode.agg (df_list.map fun df => lastK k (filterOrder d df)).flatten

theorem pySliceLast_of_ne_zero (k : Nat) (hk : k ≠ 0) (l : List α) :
    pySliceLast k l = lastK k l := by
  simp [pySliceLast, lastK, hk]

theorem pySliceLast_of_short (k : Nat) (l : List α) (h : l.length < k) :
    pySliceLast k l = l := by
  unfold pySliceLast
  split
  · rfl
  · have : l.length - k = 0 := by omega
    rw [this, List.drop_zero]

theorem pySliceLast_subset (k : Nat) (l : List α) (a : α)
    (h : a ∈ pySliceLast k l) : a ∈ l := by
  unfold pySliceLast at h
  split at h
  · exact h
  · exact List.drop_subset _ l h

theorem pySliceLast_ne_nil (k : Nat) (l : List α) (h : l ≠ []) :
    pySliceLast k l ≠ [] := by
  unfold pySliceLast
  split
  · exact h
  · have hl : 0 < l.length := List.length_pos.mpr h
    intro hnil
    have := congrArg List.length hnil
    simp [List.length_drop] at this
    omega

theorem mem_insertKey (x a : String) (l : List String) :
    x ∈ insertKey a l ↔ x = a ∨ x ∈ l := by
  induction l with
  | nil => simp [insertKey]
  | cons b bs ih =>
    unfold insertKey
    split
    · simp
    · simp only [List.mem_cons, ih]
      tauto

theorem mem_sortKeys (x : String) (l : List String) :
    x ∈ sortKeys l ↔ x ∈ l := by
  induction l with
  | nil => simp [sortKeys]
  | cons a as ih => simp [sortKeys, mem_insertKey, ih]

theorem nodup_insertKey (a : String) (l : List String) (ha : a ∉ l)
    (hl : l.Nodup) : (insertKey a l).Nodup := by
  induction l with
  | nil => simp [insertKey]
  | cons b bs ih =>
    unfold insertKey
    split
    · exact List.Nodup.cons (by simpa using ha) hl
    · rw [List.nodup_cons] at hl
      refine List.Nodup.cons ?_ (ih (fun h => ha (List.mem_cons_of_mem _ h)) hl.2)
      rw [mem_insertKey]
      rintro (rfl | hb)
      · exact ha (List.mem_cons_self _ _)
      · exact hl.1 hb

theorem nodup_sortKeys (l : List String) (hl : l.Nodup) :
    (sortKeys l).Nodup := by
  induction l with
  | nil => exact List.nodup_nil
  | cons a as ih =>
    rw [List.nodup_cons] at hl
    exact nodup_insertKey a (sortKeys as)
      (fun h => hl.1 ((mem_sortKeys a as).mp h)) (ih hl.2)

theorem mem_groupKeys (i : String) (tdf : List Row) :
    i ∈ groupKeys tdf ↔ ∃ r ∈ tdf, r.id = some i := by
  rw [groupKeys, mem_sortKeys, List.mem_dedup, List.mem_filterMap]

theorem nodup_groupKeys (tdf : List Row) : (groupKeys tdf).Nodup :=
  nodup_sortKeys _ (List.nodup_dedup _)

/-- A pandas object held by the Python heap: a time-series/trend frame
or a ranking frame. -/
inductive Frame where
  | rows (l : List Row)
  | ranks (l : List RankRow)
  deriving Repr, DecidableEq

def getRows : Frame → List Row
  | .rows l => l
  | .ranks _ => []

def getRanks : Frame → List RankRow
  | .rows _ => []
  | .ranks l => l

/-- The heap of pandas objects: a handle (list position) names an
object.  Creating a frame (`df.copy()`, `pd.concat`, `groupby.agg`)
allocates; an in-place operation (column assignment,
`reset_index(inplace=True)`, assigning `columns`) writes through a
handle. -/
abbrev Store := List Frame

def Store.alloc (s : Store) (f : Frame) : Store × Nat :=
  (s ++ [f], s.length)

def Store.read (s : Store) (h : Nat) : Frame :=
  s.getD h (.rows [])

def Store.write (s : Store) (h : Nat) (f : Frame) : Store :=
  s.set h f

theorem store_read_append (s : Store) (f : Frame) :
    Store.read (s ++ [f]) s.length = f := by
  induction s with
  | nil => rfl
  | cons a as ih => simp [Store.read]

theorem store_set_append (s : Store) (f g : Frame) :
    (s ++ [f]).set s.length g = s ++ [g] := by
  induction s with
  | nil => rfl
  | cons a as ih => simp

theorem store_read_append_lt (s t : Store) (h : Nat) (hh : h < s.length) :
    Store.read (s ++ t) h = Store.read s h := by
  simp [Store.read, List.getD, List.getElem?_append_left hh]

/-- `naive_trend` as a heap program, one store operation per pandas
allocation or in-place assignment in the source: `odf = df.copy()`
allocates, and each of the four column assignments writes through the
`odf` handle. -/
def naive_trend_prog (s : Store) (h : Nat) : Store × Nat :=
  let df := getRows (s.read h)
  let y := df.map (·.value)
  let y_1 := shiftPos1 y
  let y1_diff := List.zipWith osub y_1 y
  let yneg1_diff := (List.zipWith osub y y).map (osubScalar · 2)
  let dv := List.zipWith mean2 y1_diff yneg1_diff
  let a1 := s.alloc (.rows df)
  let s1 := a1.1
  let ho := a1.2
  let s2 := s1.write ho (.rows (setColumn (fun r v => { r with derivative_value := v })
    (getRows (s1.read ho)) dv))
  let s3 := s2.write ho (.rows ((getRows (s2.read ho)).map
    (fun r => { r with derivative_method := some "naive" })))
  let s4 := s3.write ho (.rows ((getRows (s3.read ho)).map
    (fun r => { r with function_order := none })))
  let s5 := s4.write ho (.rows ((getRows (s4.read ho)).map
    (fun r => { r with derivative_order := some 1 })))
  (s5, ho)

theorem naive_trend_prog_eq (s : Store) (h : Nat) :
    naive_trend_prog s h =
      (s ++ [Frame.rows (naive_trend (getRows (s.read h)))], s.length) := by
  simp [naive_trend_prog, naive_trend, Store.alloc, Store.write,
    store_read_append, store_set_append, getRows]

/-- `spline_trend` as a heap program.  The scipy fit (and its argument
validation) runs before `odf = df.copy()`; a raise therefore leaves the
heap as it was.  On success the source allocates the copy and performs
five in-place column assignments through the `odf` handle. -/
def spline_trend_prog (fit : Nat → ℚ → List ℚ → Nat → List ℚ) (s : Store)
    (h : Nat) (fo dord : Nat) (sp : ℚ) : Store × Option Nat :=
  let df := getRows (s.read h)
  let y := df.map (·.value)
  if y.any (·.isNone) then (s, none)
  else
    let ys := y.filterMap id
    if fo < 1 ∨ 5 < fo then (s, none)
    else if ys.length ≤ fo then (s, none)
    else
      let sm := fit fo sp ys 0
      let dv := fit fo sp ys dord
      let a1 := s.alloc (.rows df)
      let s1 := a1.1
      let ho := a1.2
      let s2 := s1.write ho (.rows (setColumn (fun r v => { r with smoothed_value := v })
        (getRows (s1.read ho)) (sm.map some)))
      let s3 := s2.write ho (.rows (setColumn (fun r v => { r with derivative_value := v })
        (getRows (s2.read ho)) (dv.map some)))
      let s4 := s3.write ho (.rows ((getRows (s3.read ho)).map
        (fun r => { r with function_order := some (fo : ℚ) })))
      let s5 := s4.write ho (.rows ((getRows (s4.read ho)).map
        (fun r => { r with derivative_method := some "spline" })))
      let s6 := s5.write ho (.rows ((getRows (s5.read ho)).map
        (fun r => { r with derivative_order := some (dord : ℚ) })))
      (s6, some ho)

/-- `sgolay_trend` as a heap program.  `odf = df.copy()` allocates
before the first filter call; a raise in either filter call leaves the
already-allocated copy behind but stops before further writes. -/
def sgolay_trend_prog (core : List (Option ℚ) → Nat → Nat → Nat → List (Option ℚ))
    (s : Store) (h : Nat) (fo dord wl : Nat) : Store × Option Nat :=
  let df := getRows (s.read h)
  let y := df.map (·.value)
  let a1 := s.alloc (.rows df)
  let s1 := a1.1
  let ho := a1.2
  match savgolFilter core y wl fo 0 with
  | none => (s1, none)
  | some sm =>
    let s2 := s1.write ho (.rows (setColumn (fun r v => { r with smoothed_value := v })
      (getRows (s1.read ho)) sm))
    match savgolFilter core y wl fo dord with
    | none => (s2, none)
    | some dv =>
      let s3 := s2.write ho (.rows (setColumn (fun r v => { r with derivative_value := v })
        (getRows (s2.read ho)) dv))
      let s4 := s3.write ho (.rows ((getRows (s3.read ho)).map
        (fun r => { r with function_order := some (fo : ℚ) })))
      let s5 := s4.write ho (.rows ((getRows (s4.read ho)).map
        (fun r => { r with derivative_method := some "sgolay" })))
      let s6 := s5.write ho (.rows ((getRows (s5.read ho)).map
        (fun r => { r with derivative_order := some (dord : ℚ) })))
      (s6, some ho)

/-- `trending` as a heap program over a list of argument handles.  The
filtered slices and their concatenation are fresh frames; the only
objects written in place are the internally created grouped frame
(`reset_index(inplace=True)` and the `columns` assignment, both through
the `odf` handle; the index/column bookkeeping they perform is not
itself modelled, so they rewrite the same content). -/
def trending_prog (s : Store) (hs : List Nat) (d : ℚ) (m : String)
    (k : Nat) : Store × Option Nat :=
  let dfs := hs.map fun hh => getRows (s.read hh)
  let cdf := dfs.map fun df => pySliceLast k (filterOrder d df)
  if hs.isEmpty then (s, none)
  else
    let tdf := cdf.flatten
    let agg := if m = "avg" then "mean" else m
    if agg = "max" ∨ agg = "mean" then
      let a1 := s.alloc (.ranks (groupAgg agg tdf))
      let s1 := a1.1
      let ho := a1.2
      let s2 := s1.write ho (.ranks (getRanks (s1.read ho)))
      let s3 := s2.write ho (.ranks (getRanks (s2.read ho)))
      (s3, some ho)
    else (s, none)

theorem store_read_write_lt (s' : Store) (n : Nat) (g : Frame) (h' : Nat)
    (hne : h' ≠ n) : Store.read (s'.set n g) h' = Store.read s' h' := by
  simp [Store.read, List.getD, List.getElem?_set_ne (Ne.symm hne)]

theorem naive_trend_prog_preserves (s : Store) (h h' : Nat)
    (hh : h' < s.length) :
    Store.read (naive_trend_prog s h).1 h' = Store.read s h' := by
  rw [naive_trend_prog_eq]
  exact store_read_append_lt s _ h' hh

theorem naive_trend_prog_fresh (s : Store) (h : Nat) :
    (naive_trend_prog s h).2 = s.length := by
  rw [naive_trend_prog_eq]

theorem spline_trend_prog_preserves (fit : Nat → ℚ → List ℚ → Nat → List ℚ)
    (s : Store) (h : Nat) (fo dord : Nat) (sp : ℚ) (h' : Nat)
    (hh : h' < s.length) :
    Store.read (spline_trend_prog fit s h fo dord sp).1 h' =
      Store.read s h' := by
  have hne : h' ≠ s.length := Nat.ne_of_lt hh
  simp only [spline_trend_prog, Store.alloc, Store.write]
  split_ifs
  · rfl
  · rfl
  · rfl
  · rw [store_read_write_lt _ _ _ _ hne, store_read_write_lt _ _ _ _ hne,
      store_read_write_lt _ _ _ _ hne, store_read_write_lt _ _ _ _ hne,
      store_read_write_lt _ _ _ _ hne]
    exact store_read_append_lt s _ h' hh

theorem spline_trend_prog_fresh (fit : Nat → ℚ → List ℚ → Nat → List ℚ)
    (s : Store) (h : Nat) (fo dord : Nat) (sp : ℚ) (ho : Nat)
    (hho : (spline_trend_prog fit s h fo dord sp).2 = some ho) :
    ho = s.length := by
  simp only [spline_trend_prog, Store.alloc, Store.write] at hho
  split_ifs at hho
  simpa using hho.symm

theorem sgolay_trend_prog_preserves
    (core : List (Option ℚ) → Nat → Nat → Nat → List (Option ℚ))
    (s : Store) (h : Nat) (fo dord wl : Nat) (h' : Nat)
    (hh : h' < s.length) :
    Store.read (sgolay_trend_prog core s h fo dord wl).1 h' =
      Store.read s h' := by
  have hne : h' ≠ s.length := Nat.ne_of_lt hh
  simp only [sgolay_trend_prog, Store.alloc, Store.write]
  split
  · exact store_read_append_lt s _ h' hh
  · split
    · rw [store_read_write_lt _ _ _ _ hne]
      exact store_read_append_lt s _ h' hh
    · rw [store_read_write_lt _ _ _ _ hne, store_read_write_lt _ _ _ _ hne,
        store_read_write_lt _ _ _ _ hne, store_read_write_lt _ _ _ _ hne,
        store_read_write_lt _ _ _ _ hne]
      exact store_read_append_lt s _ h' hh

theorem sgolay_trend_prog_fresh
    (core : List (Option ℚ) → Nat → Nat → Nat → List (Option ℚ))
    (s : Store) (h : Nat) (fo dord wl : Nat) (ho : Nat)
    (hho : (sgolay_trend_prog core s h fo dord wl).2 = some ho) :
    ho = s.length := by
  simp only [sgolay_trend_prog, Store.alloc, Store.write] at hho
  split at hho
  · simp at hho
  · split at hho
    · simp at hho
    · simpa using hho.symm

theorem trending_prog_preserves (s : Store) (hs : List Nat) (d : ℚ)
    (m : String) (k : Nat) (h' : Nat) (hh : h' < s.length) :
    Store.read (trending_prog s hs d m k).1 h' = Store.read s h' := by
  have hne : h' ≠ s.length := Nat.ne_of_lt hh
  simp only [trending_prog, Store.alloc, Store.write]
  split_ifs <;>
    first
    | rfl
    | (rw [store_read_write_lt _ _ _ _ hne, store_read_write_lt _ _ _ _ hne]
       exact store_read_append_lt s _ h' hh)

theorem trending_prog_fresh (s : Store) (hs : List Nat) (d : ℚ)
    (m : String) (k : Nat) (ho : Nat)
    (hho : (trending_prog s hs d m k).2 = some ho) : ho = s.length := by
  simp only [trending_prog, Store.alloc, Store.write] at hho
  split_ifs at hho <;> simp at hho <;> exact hho.symm

/-- A trivial stand-in for the opaque spline core, used to instantiate
witnesses: it returns the data unchanged, so it has the one-output-
cell-per-input-cell shape. -/
def idFit : Nat → ℚ → List ℚ → Nat → List ℚ := fun _ _ ys _ => ys

/-- A trivial stand-in for the opaque Savitzky-Golay core, used to
instantiate witnesses. -/
def idCore : List (Option ℚ) → Nat → Nat → Nat → List (Option ℚ) :=
  fun ys _ _ _ => ys

/-- A small concrete three-row time-series table. -/
def sampleDF : List Row :=
  [{ idx := 0, value := some 0 }, { idx := 1, value := some 1 },
   { idx := 2, value := some 4 }]

/-- C1: for every input table, each of `naive_trend`, `spline_trend`
and `sgolay_trend` returns (when it returns) a table with the same row
count and the same row order (same index) as its input: no rows are
added, removed, or reordered.  The two scipy-backed estimators carry
the shape assumption on the opaque numeric cores (one output cell per
input cell, scipy's documented contract). -/
theorem claim_C1_row_count_and_order_preserved
    (fit : Nat → ℚ → List ℚ → Nat → List ℚ)
    (core : List (Option ℚ) → Nat → Nat → Nat → List (Option ℚ))
    (hfit : ∀ k s ys nu, (fit k s ys nu).length = ys.length)
    (hcore : ∀ ys w p d, (core ys w p d).length = ys.length)
    (df : List Row) (fo dord wl : Nat) (sp : ℚ) :
    ((naive_trend df).length = df.length ∧
      (naive_trend df).map (·.idx) = df.map (·.idx)) ∧
    (∀ o, spline_trend fit df fo dord sp = some o →
      o.length = df.length ∧ o.map (·.idx) = df.map (·.idx)) ∧
    (∀ o, sgolay_trend core df fo dord wl = some o →
      o.length = df.length ∧ o.map (·.idx) = df.map (·.idx)) := by
  refine ⟨⟨naive_trend_length df, naive_trend_idx df⟩, ?_, ?_⟩
  · intro o ho
    have hsh := spline_trend_shape fit hfit df fo dord sp o ho
    exact ⟨hsh.2, hsh.1⟩
  · intro o ho
    have hsh := sgolay_trend_shape core hcore df fo dord wl o ho
    exact ⟨hsh.2, hsh.1⟩

theorem claim_C1_witness :
    ((naive_trend sampleDF).length = sampleDF.length ∧
      (naive_trend sampleDF).map (·.idx) = sampleDF.map (·.idx)) ∧
    (((spline_trend idFit sampleDF 1 1 3).getD []).length = sampleDF.length ∧
      ((spline_trend idFit sampleDF 1 1 3).getD []).map (·.idx) =
        sampleDF.map (·.idx)) ∧
    (((sgolay_trend idCore sampleDF 1 1 3).getD []).length = sampleDF.length ∧
      ((sgolay_trend idCore sampleDF 1 1 3).getD []).map (·.idx) =
        sampleDF.map (·.idx)) := by
  have hmain := claim_C1_row_count_and_order_preserved idFit idCore
    (fun _ _ _ _ => rfl) (fun _ _ _ _ => rfl) sampleDF 1 1 3 3
  exact ⟨hmain.1, hmain.2.1 _ (by decide), hmain.2.2 _ (by decide)⟩

theorem savgolFilter_none_of_short
    (core : List (Option ℚ) → Nat → Nat → Nat → List (Option ℚ))
    (y : List (Option ℚ)) (wl p d : Nat) (h : y.length < wl) :
    savgolFilter core y wl p d = none := by
  unfold savgolFilter
  split_ifs <;> rfl

/-- C6: for every input table whose series length is smaller than the
given `window_length`, `sgolay_trend` fails (the error raised by the
underlying filter propagates, modelled as `none`) rather than silently
truncating the window and returning a result. -/
theorem claim_C6_sgolay_fails_on_short_series
    (core : List (Option ℚ) → Nat → Nat → Nat → List (Option ℚ))
    (df : List Row) (fo dord wl : Nat) (h : df.length < wl) :
    sgolay_trend core df fo dord wl = none := by
  simp only [sgolay_trend]
  rw [savgolFilter_none_of_short core _ _ _ _ (by simpa using h)]
  rfl

theorem claim_C6_witness :
    sampleDF.length < 5 ∧ sgolay_trend idCore sampleDF 3 1 5 = none :=
  ⟨by decide, claim_C6_sgolay_fails_on_short_series idCore sampleDF 3 1 5 (by decide)⟩

/-- C7: on every input on which they succeed, `spline_trend` and
`sgolay_trend` return tables whose `function_order` and
`derivative_order` columns equal the argument values at every row, and
whose `derivative_method` column is `'spline'` resp. `'sgolay'` at
every row. -/
theorem claim_C7_tags_match_arguments
    (fit : Nat → ℚ → List ℚ → Nat → List ℚ)
    (core : List (Option ℚ) → Nat → Nat → Nat → List (Option ℚ))
    (df : List Row) (fo dord wl : Nat) (sp : ℚ) :
    (∀ o, spline_trend fit df fo dord sp = some o → ∀ r ∈ o,
      r.function_order = some (fo : ℚ) ∧
      r.derivative_order = some (dord : ℚ) ∧
      r.derivative_method = some "spline") ∧
    (∀ o, sgolay_trend core df fo dord wl = some o → ∀ r ∈ o,
      r.function_order = some (fo : ℚ) ∧
      r.derivative_order = some (dord : ℚ) ∧
      r.derivative_method = some "sgolay") := by
  constructor
  · intro o ho r hr
    simp only [spline_trend] at ho
    split_ifs at ho
    rw [Option.some_inj] at ho
    subst ho
    simp only [List.mem_map] at hr
    obtain ⟨r3, ⟨r2, ⟨r1, _, rfl⟩, rfl⟩, rfl⟩ := hr
    exact ⟨rfl, rfl, rfl⟩
  · intro o ho r hr
    simp only [sgolay_trend, Option.bind_eq_some] at ho
    obtain ⟨sm, _, dv, _, ho⟩ := ho
    rw [Option.some_inj] at ho
    subst ho
    simp only [List.mem_map] at hr
    obtain ⟨r3, ⟨r2, ⟨r1, _, rfl⟩, rfl⟩, rfl⟩ := hr
    exact ⟨rfl, rfl, rfl⟩

theorem claim_C7_witness :
    (∀ r ∈ (spline_trend idFit sampleDF 1 1 3).getD [],
      r.function_order = some (1 : ℚ) ∧
      r.derivative_order = some (1 : ℚ) ∧
      r.derivative_method = some "spline") ∧
    (∀ r ∈ (sgolay_trend idCore sampleDF 1 1 3).getD [],
      r.function_order = some (1 : ℚ) ∧
      r.derivative_order = some (1 : ℚ) ∧
      r.derivative_method = some "sgolay") :=
  ⟨(claim_C7_tags_match_arguments idFit idCore sampleDF 1 1 3 3).1 _ (by decide),
   (claim_C7_tags_match_arguments idFit idCore sampleDF 1 1 3 3).2 _ (by decide)⟩

/-- C2 (code bug): the claim — and the source's own docstring — say
`derivative_value` at each interior row is the average of the forward
and the backward difference (one-sided at the ends).  On the value
column `[0, 1, 4]` that reading gives `[1, 2, 3]` (`(1-0)`,
`((1-0)+(4-1))/2`, `(4-1)`).  The code instead computes the row-wise
mean of `y.shift(1) - y` (the negated backward difference) and of
`y - y-2`, which parses as `(y - y) - 2`, the constant `-2`; it
returns `[-2, -3/2, -5/2]`. -/
theorem claim_C2_naive_derivative_defect :
    (naive_trend sampleDF).map (·.derivative_value) =
      [some (-2), some (-3 / 2), some (-5 / 2)] ∧
    (naive_trend sampleDF).map (·.derivative_value) ≠
      [some 1, some 2, some 3] := by
  have hval : (naive_trend sampleDF).map (·.derivative_value) =
      [some (-2), some (-3 / 2), some (-5 / 2)] := by
    norm_num [naive_trend, sampleDF, shiftPos1, shiftNeg1, osub, osubScalar,
      mean2, setColumn]
  refine ⟨hval, ?_⟩
  rw [hval]
  intro hcontra
  have := List.head_eq_of_cons_eq hcontra
  norm_num at this

/-- C3 (as frozen, with the spec reading "take the last `k`"): the
refinement between `trending` and its spec-side description holds for
every positive `k` and non-empty frame list. -/
theorem claim_C3_trending_refines_spec (df_list : List (List Row))
    (d : ℚ) (mode : AggMode) (k : Nat) (hne : df_list ≠ []) (hk : 1 ≤ k) :
    trending df_list d mode.arg k = some (trendingSpec df_list d mode k) := by
  have hslice : (fun df => pySliceLast k (filterOrder d df)) =
      (fun df => lastK k (filterOrder d df)) :=
    funext fun df => pySliceLast_of_ne_zero k (by omega) _
  have hne' : df_list.isEmpty = false := by
    simpa [List.isEmpty_iff] using hne
  cases mode <;>
    simp [trending, trendingSpec, AggMode.arg, AggMode.agg, hslice, hne']

/-- A one-row trend table for exercising `trending` corner cases. -/
def c3Row : Row :=
  { idx := 0, id := some "A", derivative_value := some 5,
    derivative_order := some 1 }

/-- C3 counterexample: at `k = 0` the code and the claim part ways.
Python's `[-0:]` slice is `[0:]`, the whole frame, so `trending` keeps
the only matching row and scores id `A`; "the last 0 rows" of the
claim's description is the empty selection, which scores nothing. -/
theorem claim_C3_counterexample :
    trending [[c3Row]] 1 "max" 0 ≠
      some (trendingSpec [[c3Row]] 1 AggMode.max 0) := by
  decide

theorem claim_C3_witness :
    ([[c3Row]] : List (List Row)) ≠ [] ∧ 1 ≤ 2 ∧
    trending [[c3Row]] 1 AggMode.max.arg 2 =
      some (trendingSpec [[c3Row]] 1 AggMode.max 2) :=
  ⟨by decide, by decide,
    claim_C3_trending_refines_spec [[c3Row]] 1 AggMode.max 2 (by decide) (by decide)⟩

theorem trending_eq_groupAgg (df_list : List (List Row)) (d : ℚ)
    (mode : AggMode) (k : Nat) (hne : df_list ≠ []) :
    trending df_list d mode.arg k =
      some (groupAgg mode.agg
        ((df_list.map fun df => pySliceLast k (filterOrder d df)).flatten)) := by
  have hne' : df_list.isEmpty = false := by
    simpa [List.isEmpty_iff] using hne
  cases mode <;> simp [trending, AggMode.arg, AggMode.agg, hne']

theorem groupAgg_map_id (name : String) (tdf : List Row) :
    (groupAgg name tdf).map RankRow.id = groupKeys tdf := by
  simp only [groupAgg, List.map_map]
  exact List.map_id _

theorem mem_flatten_slices (df_list : List (List Row)) (d : ℚ) (k : Nat)
    (r : Row) :
    r ∈ (df_list.map fun df => pySliceLast k (filterOrder d df)).flatten ↔
      ∃ df ∈ df_list, r ∈ pySliceLast k (filterOrder d df) := by
  simp only [List.mem_flatten, List.mem_map]
  constructor
  · rintro ⟨l, ⟨df, hdf, rfl⟩, hr⟩
    exact ⟨df, hdf, hr⟩
  · rintro ⟨df, hdf, hr⟩
    exact ⟨_, ⟨df, hdf, rfl⟩, hr⟩

/-- C4: for every non-empty list of trend tables, each carrying an `id`
column that identifies its source series (constant over the table's
rows) and at least one row matching the requested `derivative_order`,
the table `trending` returns has exactly one row per distinct `id`
occurring in the input tables, and no other rows. -/
theorem claim_C4_one_row_per_id (df_list : List (List Row)) (d : ℚ)
    (mode : AggMode) (k : Nat)
    (hne : df_list ≠ [])
    (hid : ∀ df ∈ df_list, ∃ i, ∀ r ∈ df, r.id = some i)
    (hmatch : ∀ df ∈ df_list, ∃ r ∈ df, r.derivative_order = some d) :
    ∃ out, trending df_list d mode.arg k = some out ∧
      (out.map RankRow.id).Nodup ∧
      ∀ i, i ∈ out.map RankRow.id ↔
        ∃ df ∈ df_list, ∃ r ∈ df, r.id = some i := by
  refine ⟨_, trending_eq_groupAgg df_list d mode k hne, ?_, ?_⟩
  · rw [groupAgg_map_id]
    exact nodup_groupKeys _
  · intro i
    rw [groupAgg_map_id, mem_groupKeys]
    constructor
    · rintro ⟨r, hr, hri⟩
      rw [mem_flatten_slices] at hr
      obtain ⟨df, hdf, hr⟩ := hr
      have hrdf : r ∈ df :=
        List.mem_of_mem_filter (pySliceLast_subset _ _ _ hr)
      exact ⟨df, hdf, r, hrdf, hri⟩
    · rintro ⟨df, hdf, r, hrdf, hri⟩
      obtain ⟨j, hj⟩ := hid df hdf
      have hji : j = i := by
        have := hj r hrdf
        rw [this] at hri
        exact Option.some_inj.mp hri
      obtain ⟨r', hr', hr'o⟩ := hmatch df hdf
      have hr'f : r' ∈ filterOrder d df := by
        rw [filterOrder, List.mem_filter]
        exact ⟨hr', by rw [hr'o]; exact beq_self_eq_true _⟩
      have hfne : filterOrder d df ≠ [] := List.ne_nil_of_mem hr'f
      obtain ⟨r'', hr''⟩ :=
        List.exists_mem_of_ne_nil _ (pySliceLast_ne_nil k _ hfne)
      have hr''df : r'' ∈ df :=
        List.mem_of_mem_filter (pySliceLast_subset _ _ _ hr'')
      refine ⟨r'', ?_, ?_⟩
      · rw [mem_flatten_slices]
        exact ⟨df, hdf, hr''⟩
      · rw [hj r'' hr''df, hji]

/-- A one-row trend table for series `A` with a small derivative. -/
def c4A : Row :=
  { idx := 0, id := some "A", derivative_value := some 1,
    derivative_order := some 1 }

/-- A one-row trend table for series `B` with a larger derivative. -/
def c4B : Row :=
  { idx := 0, id := some "B", derivative_value := some 2,
    derivative_order := some 1 }

theorem claim_C4_witness :
    (([[c4A], [c4B]] : List (List Row)) ≠ [] ∧
      (∀ df ∈ ([[c4A], [c4B]] : List (List Row)), ∃ i, ∀ r ∈ df, r.id = some i) ∧
      (∀ df ∈ ([[c4A], [c4B]] : List (List Row)), ∃ r ∈ df,
        r.derivative_order = some (1 : ℚ))) ∧
    ∃ out, trending [[c4A], [c4B]] 1 AggMode.max.arg 5 = some out ∧
      (out.map RankRow.id).Nodup ∧
      ∀ i, i ∈ out.map RankRow.id ↔
        ∃ df ∈ ([[c4A], [c4B]] : List (List Row)), ∃ r ∈ df, r.id = some i := by
  have h1 : ([[c4A], [c4B]] : List (List Row)) ≠ [] := by decide
  have h2 : ∀ df ∈ ([[c4A], [c4B]] : List (List Row)), ∃ i, ∀ r ∈ df,
      r.id = some i := by
    intro df hdf
    simp only [List.mem_cons, List.not_mem_nil, or_false] at hdf
    rcases hdf with rfl | rfl
    · exact ⟨"A", by decide⟩
    · exact ⟨"B", by decide⟩
  have h3 : ∀ df ∈ ([[c4A], [c4B]] : List (List Row)), ∃ r ∈ df,
      r.derivative_order = some (1 : ℚ) := by
    intro df hdf
    simp only [List.mem_cons, List.not_mem_nil, or_false] at hdf
    rcases hdf with rfl | rfl
    · exact ⟨c4A, by decide, by decide⟩
    · exact ⟨c4B, by decide, by decide⟩
  exact ⟨⟨h1, h2, h3⟩, claim_C4_one_row_per_id [[c4A], [c4B]] 1 AggMode.max 5 h1 h2 h3⟩

/-- "Ordered from maximum to minimum of the aggregated score": every
adjacent pair of ranking rows has a non-increasing score. -/
def sortedMaxToMin (l : List RankRow) : Prop :=
  List.Chain' (fun a b => ∀ x ∈ a.max_or_avg, ∀ y ∈ b.max_or_avg, y ≤ x) l

/-- C5 (code bug): the docstring of `trending` says the result is
ordered from max to min, but the source has no sort step on the score;
`groupby('id')` orders the rows by key, ascending.  With series `A`
scoring 1 and `B` scoring 2, the returned table is `[(A, 1), (B, 2)]`,
ascending in score, not descending. -/
theorem claim_C5_output_not_sorted_by_score :
    trending [[c4A], [c4B]] 1 "max" 5 =
      some [⟨"A", some 1⟩, ⟨"B", some 2⟩] ∧
    ¬ sortedMaxToMin [⟨"A", some 1⟩, ⟨"B", some 2⟩] := by
  constructor
  · decide
  · intro hc
    simp only [sortedMaxToMin, List.chain'_cons, Option.mem_def,
      Option.some_inj] at hc
    have h21 : (2 : ℚ) ≤ 1 := hc.1 1 rfl 2 rfl
    norm_num at h21

/-- C8: the concrete scenario.  Series `A` carries values
`[1, 2, 3, 4, 5]` and series `B` values `[5, 4, 3, 2, 1]`, every row is
tagged `derivative_order = 1`, and the per-row derivative values are
arbitrary.  With `derivative_order=1`, `k=2`, `max_or_avg='max'`,
`trending` returns exactly the row `(A, max of the last two derivative
values of A)` and the row `(B, max of the last two derivative values of
B)`. -/
theorem claim_C8_two_series_scenario (a1 a2 a3 a4 a5 b1 b2 b3 b4 b5 : ℚ) :
    trending
      [[{ idx := 0, id := some "A", value := some 1,
          derivative_value := some a1, derivative_order := some 1 },
        { idx := 1, id := some "A", value := some 2,
          derivative_value := some a2, derivative_order := some 1 },
        { idx := 2, id := some "A", value := some 3,
          derivative_value := some a3, derivative_order := some 1 },
        { idx := 3, id := some "A", value := some 4,
          derivative_value := some a4, derivative_order := some 1 },
        { idx := 4, id := some "A", value := some 5,
          derivative_value := some a5, derivative_order := some 1 }],
       [{ idx := 0, id := some "B", value := some 5,
          derivative_value := some b1, derivative_order := some 1 },
        { idx := 1, id := some "B", value := some 4,
          derivative_value := some b2, derivative_order := some 1 },
        { idx := 2, id := some "B", value := some 3,
          derivative_value := some b3, derivative_order := some 1 },
        { idx := 3, id := some "B", value := some 2,
          derivative_value := some b4, derivative_order := some 1 },
        { idx := 4, id := some "B", value := some 1,
          derivative_value := some b5, derivative_order := some 1 }]]
      1 "max" 2 =
    some [⟨"A", some (max a4 a5)⟩, ⟨"B", some (max b4 b5)⟩] := rfl

/-- C9: none of the four public functions mutates an argument table.
In the heap model, every pandas object reachable before the call reads
the same after the call, whichever branch is taken, because the only
in-place operations of the source (`odf[...] = ...`,
`reset_index(inplace=True)`, `odf.columns = [...]`) target frames the
call itself allocated (`df.copy()`, the grouped frame); and each
returned table is a fresh allocation, not an alias of an argument. -/
theorem claim_C9_no_argument_mutation :
    (∀ (s : Store) (h : Nat), (naive_trend_prog s h).2 = s.length ∧
      ∀ h', h' < s.length →
        Store.read (naive_trend_prog s h).1 h' = Store.read s h') ∧
    (∀ (fit : Nat → ℚ → List ℚ → Nat → List ℚ) (s : Store)
        (h fo dord : Nat) (sp : ℚ),
      (∀ ho, (spline_trend_prog fit s h fo dord sp).2 = some ho →
        ho = s.length) ∧
      ∀ h', h' < s.length →
        Store.read (spline_trend_prog fit s h fo dord sp).1 h' =
          Store.read s h') ∧
    (∀ (core : List (Option ℚ) → Nat → Nat → Nat → List (Option ℚ))
        (s : Store) (h fo dord wl : Nat),
      (∀ ho, (sgolay_trend_prog core s h fo dord wl).2 = some ho →
        ho = s.length) ∧
      ∀ h', h' < s.length →
        Store.read (sgolay_trend_prog core s h fo dord wl).1 h' =
          Store.read s h') ∧
    (∀ (s : Store) (hs : List Nat) (d : ℚ) (m : String) (k : Nat),
      (∀ ho, (trending_prog s hs d m k).2 = some ho → ho = s.length) ∧
      ∀ h', h' < s.length →
        Store.read (trending_prog s hs d m k).1 h' = Store.read s h') := by
  refine ⟨fun s h => ⟨naive_trend_prog_fresh s h,
      fun h' hh => naive_trend_prog_preserves s h h' hh⟩,
    fun fit s h fo dord sp => ⟨fun ho hho =>
      spline_trend_prog_fresh fit s h fo dord sp ho hho,
      fun h' hh => spline_trend_prog_preserves fit s h fo dord sp h' hh⟩,
    fun core s h fo dord wl => ⟨fun ho hho =>
      sgolay_trend_prog_fresh core s h fo dord wl ho hho,
      fun h' hh => sgolay_trend_prog_preserves core s h fo dord wl h' hh⟩,
    fun s hs d m k => ⟨fun ho hho => trending_prog_fresh s hs d m k ho hho,
      fun h' hh => trending_prog_preserves s hs d m k h' hh⟩⟩

/-- A one-frame heap holding the sample table. -/
def sampleStore : Store := [Frame.rows sampleDF]

theorem claim_C9_witness :
    ((naive_trend_prog sampleStore 0).2 = sampleStore.length ∧
      Store.read (naive_trend_prog sampleStore 0).1 0 =
        Store.read sampleStore 0) ∧
    (Store.read (spline_trend_prog idFit sampleStore 0 1 1 3).1 0 =
      Store.read sampleStore 0) ∧
    (Store.read (sgolay_trend_prog idCore sampleStore 0 1 1 3).1 0 =
      Store.read sampleStore 0) ∧
    (Store.read (trending_prog sampleStore [0] 1 "max" 5).1 0 =
      Store.read sampleStore 0) :=
  ⟨⟨(claim_C9_no_argument_mutation.1 sampleStore 0).1,
    (claim_C9_no_argument_mutation.1 sampleStore 0).2 0 (by decide)⟩,
   (claim_C9_no_argument_mutation.2.1 idFit sampleStore 0 1 1 3).2 0 (by decide),
   (claim_C9_no_argument_mutation.2.2.1 idCore sampleStore 0 1 1 3).2 0 (by decide),
   (claim_C9_no_argument_mutation.2.2.2 sampleStore [0] 1 "max" 5).2 0 (by decide)⟩

/-- C10 (amended): if a table of the input list has at least one but
fewer than `k` rows matching the requested derivative order, `trending`
does not fail, the table's tail window is all of its matching rows, and
its id still receives a score. -/
theorem claim_C10_short_series_uses_all_rows (df_list : List (List Row))
    (d : ℚ) (mode : AggMode) (k : Nat) (df : List Row) (i : String)
    (hmem : df ∈ df_list)
    (hid : ∀ r ∈ df, r.id = some i)
    (hne : filterOrder d df ≠ [])
    (hk : (filterOrder d df).length < k) :
    pySliceLast k (filterOrder d df) = filterOrder d df ∧
    ∃ out, trending df_list d mode.arg k = some out ∧
      i ∈ out.map RankRow.id := by
  refine ⟨pySliceLast_of_short k _ hk, _,
    trending_eq_groupAgg df_list d mode k (List.ne_nil_of_mem hmem), ?_⟩
  rw [groupAgg_map_id, mem_groupKeys]
  obtain ⟨r, hr⟩ := List.exists_mem_of_ne_nil _ (pySliceLast_ne_nil k _ hne)
  have hrdf : r ∈ df := List.mem_of_mem_filter (pySliceLast_subset _ _ _ hr)
  refine ⟨r, ?_, hid r hrdf⟩
  rw [mem_flatten_slices]
  exact ⟨df, hmem, hr⟩

/-- A one-row trend table whose single row does not match derivative
order 1. -/
def c10Row : Row :=
  { idx := 0, id := some "A", derivative_value := some 1,
    derivative_order := some 2 }

/-- C10 counterexample: a table with zero rows matching the requested
derivative order (zero is fewer than `k = 5`).  `trending` does not
fail, but its result is the empty ranking table: id `A` receives no
score, against the claim's "still produces a score for that id". -/
theorem claim_C10_counterexample :
    trending [[c10Row]] 1 "max" 5 = some [] := by
  decide

theorem claim_C10_witness :
    (c3Row.id = some "A" ∧ filterOrder 1 [c3Row] ≠ [] ∧
      (filterOrder 1 [c3Row]).length < 5) ∧
    pySliceLast 5 (filterOrder 1 [c3Row]) = filterOrder 1 [c3Row] ∧
    ∃ out, trending [[c3Row]] 1 AggMode.max.arg 5 = some out ∧
      "A" ∈ out.map RankRow.id :=
  ⟨⟨by decide, by decide, by decide⟩,
    claim_C10_short_series_uses_all_rows [[c3Row]] 1 AggMode.max 5 [c3Row] "A"
      (by decide) (by decide) (by decide) (by decide)⟩
